import Mathlib

/-!
Shallow embedding of the core simulation of the JS-Shooter repository
(src/src/game.js) and proofs about it: the fixed-step loop driver, look
smoothing and pitch clamping, horizontal movement projection, the hitscan
shooting routine, shop purchases, the enemy AI state transition, player
damage / game over, and the enemy respawn manager.

Times are rationals (JS numbers carry the exact decimal literals used
here), money is an integer, timestamps (Date.now()) are integers in
milliseconds.  External library calls (THREE.js raycasting, quaternion
rotation, vector normalisation by irrational length) are abstracted as
explicit parameters; every guard and branch around them is translated from
the source.
-/

namespace JSShooter

/-! ## Game loop driver (game.js, `_loop`, lines 1792-1803)

The loop reads a frame delta, clamps it with min(0.1, dt), adds it to the
accumulator and drains the accumulator in fixed increments:
while (accumulator >= FIXED_STEP) do a fixed update; accumulator -= FIXED_STEP.
`tickCount` is the closed form of the number of iterations of that while
loop and `drainAcc` the accumulator value the loop leaves; the theorems
`tickCount_of_lt` and `tickCount_of_ge` establish the while loop's two
defining equations, so the closed form is faithful to the source loop. -/

def FIXED_STEP : ℚ := 1 / 60

def clampDelta (dt : ℚ) : ℚ := min (1 / 10) dt

def tickCount (acc : ℚ) : ℕ := ⌊acc / FIXED_STEP⌋₊

def drainAcc (acc : ℚ) : ℚ := acc - tickCount acc * FIXED_STEP

def frameStep (s : ℚ × ℕ) (dt : ℚ) : ℚ × ℕ :=
  (drainAcc (s.1 + clampDelta dt), s.2 + tickCount (s.1 + clampDelta dt))

def runFrames (deltas : List ℚ) : ℚ × ℕ :=
  deltas.foldl frameStep (0, 0)

theorem FIXED_STEP_pos : 0 < FIXED_STEP := by norm_num [FIXED_STEP]

theorem tickCount_of_lt (a : ℚ) (h : a < FIXED_STEP) : tickCount a = 0 :=
  Nat.floor_eq_zero.mpr ((div_lt_one FIXED_STEP_pos).mpr h)

theorem tickCount_of_ge (a : ℚ) (h : FIXED_STEP ≤ a) :
    tickCount a = tickCount (a - FIXED_STEP) + 1 := by
  have hs : (FIXED_STEP : ℚ) ≠ 0 := ne_of_gt FIXED_STEP_pos
  have hdiv : (a - FIXED_STEP) / FIXED_STEP = a / FIXED_STEP - ((1 : ℕ) : ℚ) := by
    push_cast
    field_simp
  have h1 : (1 : ℚ) ≤ a / FIXED_STEP := (one_le_div FIXED_STEP_pos).mpr h
  have hfl : 1 ≤ ⌊a / FIXED_STEP⌋₊ := Nat.le_floor (by exact_mod_cast h1)
  simp only [tickCount]
  rw [hdiv, Nat.floor_sub_nat]
  omega

theorem drainAcc_nonneg (a : ℚ) (ha : 0 ≤ a) : 0 ≤ drainAcc a := by
  have hfl : (⌊a / FIXED_STEP⌋₊ : ℚ) ≤ a / FIXED_STEP :=
    Nat.floor_le (div_nonneg ha (le_of_lt FIXED_STEP_pos))
  have h2 := mul_le_mul_of_nonneg_right hfl (le_of_lt FIXED_STEP_pos)
  rw [div_mul_cancel₀ a (ne_of_gt FIXED_STEP_pos)] at h2
  simp only [drainAcc, tickCount]
  linarith

theorem drainAcc_lt (a : ℚ) : drainAcc a < FIXED_STEP := by
  have hfl : a / FIXED_STEP < ⌊a / FIXED_STEP⌋₊ + 1 := Nat.lt_floor_add_one _
  have h2 := mul_lt_mul_of_pos_right hfl FIXED_STEP_pos
  rw [div_mul_cancel₀ a (ne_of_gt FIXED_STEP_pos)] at h2
  simp only [drainAcc, tickCount]
  linarith

theorem tick_split (a S : ℚ) (hS : 0 ≤ S) :
    tickCount a + tickCount (drainAcc a + S) = tickCount (a + S) := by
  have hs : (FIXED_STEP : ℚ) ≠ 0 := ne_of_gt FIXED_STEP_pos
  have hdiv : (drainAcc a + S) / FIXED_STEP =
      (a + S) / FIXED_STEP - ((⌊a / FIXED_STEP⌋₊ : ℕ) : ℚ) := by
    simp only [drainAcc, tickCount]
    field_simp
    ring
  have hle : a / FIXED_STEP ≤ (a + S) / FIXED_STEP :=
    (div_le_div_iff_of_pos_right FIXED_STEP_pos).mpr (by linarith)
  have hmono : ⌊a / FIXED_STEP⌋₊ ≤ ⌊(a + S) / FIXED_STEP⌋₊ := Nat.floor_le_floor hle
  simp only [tickCount]
  rw [hdiv, Nat.floor_sub_nat]
  omega

theorem sum_nonneg_of_bounds (ds : List ℚ) (hb : ∀ d ∈ ds, 0 ≤ d ∧ d ≤ 1 / 10) :
    0 ≤ ds.sum := by
  induction ds with
  | nil => simp
  | cons d ds ih =>
    simp only [List.sum_cons]
    have hd := hb d (by simp)
    have hrest := ih (fun x hx => hb x (by simp [hx]))
    linarith [hd.1]

theorem runFrames_aux (ds : List ℚ) :
    ∀ (acc : ℚ) (n : ℕ), 0 ≤ acc → acc < FIXED_STEP →
    (∀ d ∈ ds, 0 ≤ d ∧ d ≤ 1 / 10) →
    (ds.foldl frameStep (acc, n)).2 = n + tickCount (acc + ds.sum) := by
  induction ds with
  | nil =>
    intro acc n h0 hlt _
    simp only [List.foldl_nil, List.sum_nil, add_zero]
    rw [tickCount_of_lt acc hlt]
    omega
  | cons d ds ih =>
    intro acc n h0 hlt hb
    have hd := hb d (by simp)
    have hclamp : clampDelta d = d := min_eq_right hd.2
    have hb2 : ∀ x ∈ ds, 0 ≤ x ∧ x ≤ 1 / 10 := fun x hx => hb x (by simp [hx])
    have ha : 0 ≤ acc + d := by linarith [hd.1]
    simp only [List.foldl_cons, frameStep, hclamp]
    rw [ih (drainAcc (acc + d)) (n + tickCount (acc + d))
          (drainAcc_nonneg _ ha) (drainAcc_lt _) hb2]
    have hsplit := tick_split (acc + d) ds.sum (sum_nonneg_of_bounds ds hb2)
    simp only [List.sum_cons, ← add_assoc]
    omega

theorem runFrames_count (ds : List ℚ) (hb : ∀ d ∈ ds, 0 ≤ d ∧ d ≤ 1 / 10) :
    (runFrames ds).2 = tickCount ds.sum := by
  have := runFrames_aux ds 0 0 (le_refl 0) FIXED_STEP_pos hb
  simpa [runFrames] using this

/-- C2 counterexample: the claim quantifies over all frame-delta sequences,
but `_loop` clamps each frame delta with min(0.1, dt) before accumulating.
A single frame of 0.2 s is clamped to 0.1 s and yields 6 fixed ticks,
while the same total time chunked as two 0.1 s frames yields 12 ticks. -/
theorem C2_chunking_counterexample :
    List.sum [(1 : ℚ) / 5] = List.sum [(1 : ℚ) / 10, 1 / 10] ∧
    (runFrames [(1 : ℚ) / 5]).2 ≠ (runFrames [(1 : ℚ) / 10, 1 / 10]).2 := by
  constructor
  · norm_num
  · norm_num [runFrames, frameStep, tickCount, drainAcc, clampDelta, FIXED_STEP]

/-- C2 (amended): for every two sequences of frame deltas in which each
delta is nonnegative and at most the clamp bound 0.1 s (so the
min(0.1, dt) clamp in `_loop` is the identity), equal total time produces
the same number of fixed physics ticks, regardless of how the time was
chunked into frames. -/
theorem C2_accumulator_determinism (ds1 ds2 : List ℚ)
    (h1 : ∀ d ∈ ds1, 0 ≤ d ∧ d ≤ 1 / 10)
    (h2 : ∀ d ∈ ds2, 0 ≤ d ∧ d ≤ 1 / 10)
    (hsum : ds1.sum = ds2.sum) :
    (runFrames ds1).2 = (runFrames ds2).2 := by
  rw [runFrames_count ds1 h1, runFrames_count ds2 h2, hsum]

/-- C2 witness: 0.05+0.05 s in two frames and 0.1 s in one frame both
produce the same tick count. -/
theorem C2_accumulator_determinism_witness :
    (runFrames [(1 : ℚ) / 20, 1 / 20]).2 = (runFrames [(1 : ℚ) / 10]).2 :=
  C2_accumulator_determinism [(1 : ℚ) / 20, 1 / 20] [(1 : ℚ) / 10]
    (by intro d hd
        simp only [List.mem_cons, List.not_mem_nil, or_false] at hd
        rcases hd with h | h <;> subst h <;> norm_num)
    (by intro d hd
        simp only [List.mem_cons, List.not_mem_nil, or_false] at hd
        subst hd; norm_num)
    (by norm_num)

/-! ## Look input and pitch clamping

game.js `onPointerMove` (lines 775-786): a mouse move subtracts the scaled
movement from targetPitch and clamps it to [-limit, limit] with
limit = PI/2 - 0.01; `_fixedUpdate` (lines 1806-1812) moves smoothedPitch
towards targetPitch by the factor 1 - exp(-smoothSpeed*dt), which lies in
[0, 1), and writes smoothedPitch to the camera rig.  The clamp bound is
kept as a parameter `limit` (its value in the source is the double closest
to PI/2 - 0.01, an irrational quantity); the smoothing factor is kept as a
parameter `f` constrained to [0, 1].  Both targetPitch and smoothedPitch
start at 0 (`start`, line 2833). -/

inductive PitchStep where
  | look (dy : ℚ)
  | tick (f : ℚ)

structure PitchState where
  target : ℚ
  smoothed : ℚ

def clampPitch (limit p : ℚ) : ℚ := max (-limit) (min limit p)

def pitchStep (limit : ℚ) (s : PitchState) : PitchStep → PitchState
  | .look dy => { s with target := clampPitch limit (s.target - dy) }
  | .tick f => { s with smoothed := s.smoothed + (s.target - s.smoothed) * f }

def runPitch (limit : ℚ) (steps : List PitchStep) : PitchState :=
  steps.foldl (pitchStep limit) ⟨0, 0⟩

theorem clampPitch_abs_le (limit p : ℚ) (h : 0 ≤ limit) :
    |clampPitch limit p| ≤ limit := by
  rw [abs_le]
  constructor
  · exact le_max_left _ _
  · exact max_le (by linarith) (min_le_left _ _)

theorem pitch_inv (limit : ℚ) (h : 0 ≤ limit) (steps : List PitchStep)
    (hf : ∀ f, PitchStep.tick f ∈ steps → 0 ≤ f ∧ f ≤ 1) :
    ∀ s : PitchState, |s.target| ≤ limit → |s.smoothed| ≤ limit →
    |(steps.foldl (pitchStep limit) s).target| ≤ limit ∧
    |(steps.foldl (pitchStep limit) s).smoothed| ≤ limit := by
  induction steps with
  | nil => intro s ht hs; exact ⟨ht, hs⟩
  | cons st steps ih =>
    intro s ht hs
    have hf2 : ∀ f, PitchStep.tick f ∈ steps → 0 ≤ f ∧ f ≤ 1 :=
      fun f hfm => hf f (by simp [hfm])
    simp only [List.foldl_cons]
    cases st with
    | look dy =>
      exact ih hf2 _ (clampPitch_abs_le limit _ h) hs
    | tick f =>
      have hfr := hf f (by simp)
      apply ih hf2
      · exact ht
      · show |s.smoothed + (s.target - s.smoothed) * f| ≤ limit
        have heq : s.smoothed + (s.target - s.smoothed) * f =
            s.smoothed * (1 - f) + s.target * f := by ring
        rw [heq]
        calc |s.smoothed * (1 - f) + s.target * f|
            ≤ |s.smoothed * (1 - f)| + |s.target * f| := abs_add _ _
          _ = |s.smoothed| * (1 - f) + |s.target| * f := by
              rw [abs_mul, abs_mul, abs_of_nonneg (by linarith [hfr.2] : (0:ℚ) ≤ 1 - f),
                abs_of_nonneg hfr.1]
          _ ≤ limit * (1 - f) + limit * f := by
              have h1 := mul_le_mul_of_nonneg_right hs (by linarith [hfr.2] : (0:ℚ) ≤ 1 - f)
              have h2 := mul_le_mul_of_nonneg_right ht hfr.1
              linarith
          _ = limit := by ring

/-- C6: for every sequence of look-delta inputs and fixed-update smoothing
steps, however large the deltas, both the raw target pitch and the
smoothed pitch applied to the rig stay within [-limit, limit], hence
strictly inside the open interval (-B, B) for every B exceeding the clamp
bound limit; with the source's limit = PI/2 - 0.01 this is the open
interval (-PI/2 + eps, PI/2 - eps) for every eps < 0.01. -/
theorem C6_pitch_clamped (limit B : ℚ) (steps : List PitchStep)
    (hlim : 0 ≤ limit) (hB : limit < B)
    (hf : ∀ f, PitchStep.tick f ∈ steps → 0 ≤ f ∧ f ≤ 1) :
    -B < (runPitch limit steps).target ∧ (runPitch limit steps).target < B ∧
    -B < (runPitch limit steps).smoothed ∧ (runPitch limit steps).smoothed < B := by
  have h := pitch_inv limit hlim steps hf ⟨0, 0⟩ (by simpa using hlim) (by simpa using hlim)
  simp only [abs_le] at h
  unfold runPitch
  obtain ⟨⟨h1, h2⟩, h3, h4⟩ := h
  exact ⟨by linarith, by linarith, by linarith, by linarith⟩

/-- C6 witness: a burst of huge look deltas interleaved with smoothing
ticks keeps the pitch inside the open interval. -/
theorem C6_pitch_clamped_witness :
    -(8 / 5) < (runPitch (3 / 2) [.look 1000, .tick (1 / 2), .look (-4000),
        .tick 1, .look 7]).target ∧
    (runPitch (3 / 2) [.look 1000, .tick (1 / 2), .look (-4000),
        .tick 1, .look 7]).target < 8 / 5 ∧
    -(8 / 5) < (runPitch (3 / 2) [.look 1000, .tick (1 / 2), .look (-4000),
        .tick 1, .look 7]).smoothed ∧
    (runPitch (3 / 2) [.look 1000, .tick (1 / 2), .look (-4000),
        .tick 1, .look 7]).smoothed < 8 / 5 :=
  C6_pitch_clamped (3 / 2) (8 / 5) _ (by norm_num) (by norm_num)
    (by intro f hfm
        simp only [List.mem_cons, List.not_mem_nil, or_false] at hfm
        rcases hfm with h | h | h | h | h
        · exact PitchStep.noConfusion h
        · injection h with h2
          subst h2
          norm_num
        · exact PitchStep.noConfusion h
        · injection h with h2
          subst h2
          norm_num
        · exact PitchStep.noConfusion h)

/-! ## Weapon catalog, purchases, weapon switching (C4, C10)

game.js constructor lines 112-119: the catalog, currentWeaponIndex = 2
(SMG), unlocked = only smg, money = 50.  `_buyWeapon` (lines 2780-2804):
return unchanged if already owned; return unchanged if money < cost; else
deduct cost, set unlocked[id], and the for loop over the catalog equips
the bought weapon (sets currentWeaponIndex and fireRate).  `onKey`
(lines 741-743): Digit1/2/3 switch only when the weapon is unlocked.
`_shoot` adds 5 or 15 money on kills (modelled as `earn`).  scopeFov and
the DOM display updates are rendering-only and omitted. -/

inductive WeaponId where
  | shotgun
  | sniper
  | smg
deriving DecidableEq

structure Weapon where
  id : WeaponId
  fireRate : ℚ
  pellets : ℕ
  spread : ℚ
  damage : ℚ
  automatic : Bool

def defaultWeapon : Weapon := ⟨.smg, 14, 1, 2 / 100, 1, true⟩

def weapons : List Weapon :=
  [⟨.shotgun, 12 / 10, 9, 14 / 100, 1, false⟩,
   ⟨.sniper, 6 / 10, 1, 0, 10, false⟩,
   ⟨.smg, 14, 1, 2 / 100, 1, true⟩]

structure ShopState where
  money : ℤ
  unlocked : WeaponId → Bool
  currentWeaponIndex : ℕ
  fireRate : ℚ

def initialShop : ShopState where
  money := 50
  unlocked := fun w => match w with
    | .smg => true
    | _ => false
  currentWeaponIndex := 2
  fireRate := 14

/-- The for loop at game.js lines 2790-2797: scan the catalog and equip
the weapon whose id matches the bought id. -/
def equipLoop (id : WeaponId) (cur : ℕ × ℚ) : ℕ × ℚ :=
  (List.range weapons.length).foldl
    (fun c i =>
      if (weapons.getD i defaultWeapon).id = id
      then (i, (weapons.getD i defaultWeapon).fireRate)
      else c)
    cur

def buyWeapon (id : WeaponId) (cost : ℤ) (s : ShopState) : ShopState :=
  if s.unlocked id then s
  else if s.money < cost then s
  else
    let equipped := equipLoop id (s.currentWeaponIndex, s.fireRate)
    { money := s.money - cost
      unlocked := fun w => if w = id then true else s.unlocked w
      currentWeaponIndex := equipped.1
      fireRate := equipped.2 }

/-- onKey Digit1/Digit2/Digit3 (game.js lines 741-743): switch to catalog
slot i only when that weapon is unlocked. -/
def pressDigit (i : ℕ) (s : ShopState) : ShopState :=
  if s.unlocked ((weapons.getD i defaultWeapon).id)
  then { s with currentWeaponIndex := i,
                fireRate := (weapons.getD i defaultWeapon).fireRate }
  else s

inductive ShopOp where
  | digit1
  | digit2
  | digit3
  | buy (id : WeaponId) (cost : ℤ)
  | earn (amount : ℤ)

def shopOpApply (s : ShopState) : ShopOp → ShopState
  | .digit1 => pressDigit 0 s
  | .digit2 => pressDigit 1 s
  | .digit3 => pressDigit 2 s
  | .buy id cost => buyWeapon id cost s
  | .earn amount => { s with money := s.money + amount }

def runShop (ops : List ShopOp) : ShopState :=
  ops.foldl shopOpApply initialShop

/-- The equipped weapon is unlocked. -/
def equippedUnlocked (s : ShopState) : Prop :=
  s.unlocked ((weapons.getD s.currentWeaponIndex defaultWeapon).id) = true

/-- C4: an invalid weapon purchase (already owned, or insufficient funds
such as money = 50 against cost = 200) leaves the whole shop state
unchanged: money is not deducted, the unlocked set is unmodified, and the
weapon stays locked. -/
theorem C4_invalid_purchase_unchanged (id : WeaponId) (cost : ℤ) (s : ShopState)
    (h : s.unlocked id = true ∨ s.money < cost) :
    buyWeapon id cost s = s := by
  rcases h with h | h
  · simp [buyWeapon, h]
  · unfold buyWeapon
    by_cases hu : s.unlocked id
    · simp [hu]
    · simp [hu, h]

/-- C4 witness: the starting player (money = 50, sniper locked) fails to
buy the 200-cost sniper and the state is untouched, so the sniper stays
locked and the money stays 50. -/
theorem C4_invalid_purchase_unchanged_witness :
    buyWeapon .sniper 200 initialShop = initialShop ∧
    (buyWeapon .sniper 200 initialShop).money = 50 ∧
    (buyWeapon .sniper 200 initialShop).unlocked .sniper = false := by
  have h := C4_invalid_purchase_unchanged .sniper 200 initialShop (Or.inr (by norm_num [initialShop]))
  refine ⟨h, ?_, ?_⟩ <;> rw [h] <;> rfl

theorem equipLoop_shotgun (cur : ℕ × ℚ) : equipLoop .shotgun cur = (0, 12 / 10) := rfl

theorem equipLoop_sniper (cur : ℕ × ℚ) : equipLoop .sniper cur = (1, 6 / 10) := rfl

theorem equipLoop_smg (cur : ℕ × ℚ) : equipLoop .smg cur = (2, 14) := rfl

theorem shopOp_preserves (s : ShopState) (op : ShopOp)
    (h : equippedUnlocked s) : equippedUnlocked (shopOpApply s op) := by
  cases op with
  | digit1 =>
    unfold shopOpApply pressDigit
    by_cases hu : s.unlocked ((weapons.getD 0 defaultWeapon).id) <;>
      simp only [hu, if_true, if_false] <;> first
      | exact h
      | (unfold equippedUnlocked; simpa using hu)
  | digit2 =>
    unfold shopOpApply pressDigit
    by_cases hu : s.unlocked ((weapons.getD 1 defaultWeapon).id) <;>
      simp only [hu, if_true, if_false] <;> first
      | exact h
      | (unfold equippedUnlocked; simpa using hu)
  | digit3 =>
    unfold shopOpApply pressDigit
    by_cases hu : s.unlocked ((weapons.getD 2 defaultWeapon).id) <;>
      simp only [hu, if_true, if_false] <;> first
      | exact h
      | (unfold equippedUnlocked; simpa using hu)
  | earn amount => exact h
  | buy id cost =>
    unfold shopOpApply buyWeapon
    by_cases hu : s.unlocked id
    · simpa [hu] using h
    · by_cases hm : s.money < cost
      · simpa [hu, hm] using h
      · simp only [hu, hm, if_false, Bool.false_eq_true]
        cases id with
        | shotgun => unfold equippedUnlocked; simp [equipLoop_shotgun, weapons]
        | sniper => unfold equippedUnlocked; simp [equipLoop_sniper, weapons]
        | smg => unfold equippedUnlocked; simp [equipLoop_smg, weapons]

/-- C10: after any sequence of weapon-switch key presses, purchases and
money awards, the equipped weapon is one the player has unlocked; the
player starts with only the SMG unlocked and the SMG (catalog slot 2)
equipped. -/
theorem C10_equipped_always_unlocked (ops : List ShopOp) :
    equippedUnlocked (runShop ops) ∧
    initialShop.currentWeaponIndex = 2 ∧
    initialShop.unlocked .smg = true ∧
    initialShop.unlocked .shotgun = false ∧
    initialShop.unlocked .sniper = false := by
  refine ⟨?_, rfl, rfl, rfl, rfl⟩
  unfold runShop
  have general : ∀ (l : List ShopOp) (s : ShopState), equippedUnlocked s →
      equippedUnlocked (l.foldl shopOpApply s) := by
    intro l
    induction l with
    | nil => intro s hs; exact hs
    | cons op l ih =>
      intro s hs
      exact ih (shopOpApply s op) (shopOp_preserves s op hs)
  exact general ops initialShop rfl

/-! ## Enemy AI state transition (C3)

game.js `_updateEnemies` (lines 1986-2110), per live enemy each fixed
step: isUnderAttack = lastDamageTime set and now - lastDamageTime < 5000;
extendedRange = detectionRange * 2 when under attack, else detectionRange;
if distToPlayer < extendedRange or isUnderAttack the enemy's state becomes
hunting_player; otherwise the code first writes free_roaming, scans all
other live enemies of a different team within distance 35 for the nearest
one, and overwrites the state with fighting_enemy when one exists.
Distances are the Euclidean distances computed by THREE's distanceTo; the
transition only compares them, so they enter the model as rationals.
`_createEnemy` (line 1450) sets detectionRange = 20 and leaves
lastDamageTime unset. -/

inductive Team where
  | red
  | blue
  | green
  | yellow
deriving DecidableEq

inductive AIState where
  | hunting_player
  | fighting_enemy
  | free_roaming
deriving DecidableEq

structure OtherEnemy where
  alive : Bool
  team : Team
  dist : ℚ

def isUnderAttack (now : ℤ) (lastDamageTime : Option ℤ) : Bool :=
  match lastDamageTime with
  | none => false
  | some t => decide (now - t < 5000)

def rivalInRange (team : Team) (others : List OtherEnemy) : Bool :=
  others.any (fun o => o.alive && decide (o.team ≠ team) && decide (o.dist < 35))

def nextAIState (distToPlayer detectionRange : ℚ) (now : ℤ)
    (lastDamageTime : Option ℤ) (team : Team) (others : List OtherEnemy) :
    AIState :=
  let ua := isUnderAttack now lastDamageTime
  let extendedRange := if ua then detectionRange * 2 else detectionRange
  if distToPlayer < extendedRange ∨ ua = true then .hunting_player
  else if rivalInRange team others then .fighting_enemy
  else .free_roaming

/-- C3: on each AI tick a live enemy enters hunting_player exactly when its
distance to the player is below the effective detection range (doubled
while damaged within the last 5 seconds) or it was damaged within the last
5 seconds; otherwise it enters fighting_enemy exactly when a live enemy of
a different team is within the engagement radius 35, and free_roaming
otherwise.  In particular with detectionRange = 20 and no recorded damage,
a player at distance 25 leaves the enemy in free_roaming or
fighting_enemy, and a player at distance 15 makes it hunting_player. -/
theorem C3_ai_state_transition (distToPlayer detectionRange : ℚ) (now : ℤ)
    (lastDamageTime : Option ℤ) (team : Team) (others : List OtherEnemy) :
    (nextAIState distToPlayer detectionRange now lastDamageTime team others =
        .hunting_player ↔
      (distToPlayer < (if isUnderAttack now lastDamageTime
          then detectionRange * 2 else detectionRange) ∨
        isUnderAttack now lastDamageTime = true)) ∧
    (nextAIState distToPlayer detectionRange now lastDamageTime team others =
        .fighting_enemy ↔
      (¬(distToPlayer < (if isUnderAttack now lastDamageTime
          then detectionRange * 2 else detectionRange) ∨
        isUnderAttack now lastDamageTime = true) ∧
        ∃ o ∈ others, o.alive = true ∧ o.team ≠ team ∧ o.dist < 35)) ∧
    (nextAIState distToPlayer detectionRange now lastDamageTime team others =
        .free_roaming ↔
      (¬(distToPlayer < (if isUnderAttack now lastDamageTime
          then detectionRange * 2 else detectionRange) ∨
        isUnderAttack now lastDamageTime = true) ∧
        ¬∃ o ∈ others, o.alive = true ∧ o.team ≠ team ∧ o.dist < 35)) ∧
    (∀ others2 : List OtherEnemy,
      nextAIState 25 20 now none team others2 ≠ .hunting_player) ∧
    (∀ others2 : List OtherEnemy,
      nextAIState 15 20 now none team others2 = .hunting_player) := by
  have hriv : rivalInRange team others = true ↔
      ∃ o ∈ others, o.alive = true ∧ o.team ≠ team ∧ o.dist < 35 := by
    unfold rivalInRange
    rw [List.any_eq_true]
    constructor
    · rintro ⟨o, ho, hcond⟩
      simp only [Bool.and_eq_true, decide_eq_true_eq] at hcond
      exact ⟨o, ho, hcond.1.1, hcond.1.2, hcond.2⟩
    · rintro ⟨o, ho, h1, h2, h3⟩
      exact ⟨o, ho, by simp [h1, h2, h3]⟩
  have h25 : ∀ others2 : List OtherEnemy,
      nextAIState 25 20 now none team others2 ≠ .hunting_player := by
    intro others2
    simp only [nextAIState, isUnderAttack]
    norm_num
    by_cases hr : rivalInRange team others2 <;> simp [hr]
  have h15 : ∀ others2 : List OtherEnemy,
      nextAIState 15 20 now none team others2 = .hunting_player := by
    intro others2
    simp only [nextAIState, isUnderAttack]
    norm_num
  refine ⟨?_, ?_, ?_, h25, h15⟩ <;>
  · by_cases hcc : distToPlayer < (if isUnderAttack now lastDamageTime
        then detectionRange * 2 else detectionRange) ∨
        isUnderAttack now lastDamageTime = true
    · simp [nextAIState, hcc]
    · by_cases hrr : rivalInRange team others = true
      · have hex := hriv.mp hrr
        simp [nextAIState, hcc, hrr, hex]
      · have hne : ¬∃ o ∈ others, o.alive = true ∧ o.team ≠ team ∧ o.dist < 35 :=
          fun hx => hrr (hriv.mpr hx)
        simp [nextAIState, hcc, hrr, hne]

/-! ## Player damage, game over, loop halt (C9)

game.js `_damagePlayer` (lines 2307-2317): health = max(0, health - damage),
then `_gameOver` when health <= 0; `_gameOver` (lines 2335-2338) sets
running = false; `_loop` (lines 1792-1794) returns immediately when
running is false, so no frame after death drains the accumulator or runs
`_fixedUpdate`.  The content of one fixed update is abstracted as a state
transformer parameter; the claim is about the guard. -/

structure PlayerState where
  health : ℚ
  running : Bool
deriving DecidableEq

def damagePlayer (damage : ℚ) (s : PlayerState) : PlayerState :=
  let h := max 0 (s.health - damage)
  if h ≤ 0 then { health := h, running := false }
  else { s with health := h }

/-- One animation frame of `_loop`: when running is false the callback
returns before any fixed update; otherwise it drains `n` fixed updates. -/
def loopFrame (fixedUpdate : PlayerState → PlayerState) (s : PlayerState)
    (n : ℕ) : PlayerState :=
  if s.running then fixedUpdate^[n] s else s

def runLoop (fixedUpdate : PlayerState → PlayerState) (s : PlayerState)
    (frames : List ℕ) : PlayerState :=
  frames.foldl (loopFrame fixedUpdate) s

/-- C9: applying enemy damage never stores a negative health value; when
the clamped health reaches 0 the game sets running = false; and with
running = false the loop executes no further fixed updates for any
sequence of frames. -/
theorem C9_death_halts_loop (damage : ℚ) (s : PlayerState)
    (fixedUpdate : PlayerState → PlayerState) (frames : List ℕ) :
    0 ≤ (damagePlayer damage s).health ∧
    ((damagePlayer damage s).health = 0 → (damagePlayer damage s).running = false) ∧
    ((damagePlayer damage s).running = false →
      runLoop fixedUpdate (damagePlayer damage s) frames = damagePlayer damage s) := by
  refine ⟨?_, ?_, ?_⟩
  · unfold damagePlayer
    by_cases h : max 0 (s.health - damage) ≤ 0 <;> simp [h]
  · intro h0
    unfold damagePlayer at h0 ⊢
    by_cases h : max 0 (s.health - damage) ≤ 0
    · rw [if_pos h]
    · rw [if_neg h] at h0 ⊢
      exact absurd (le_of_eq h0) h
  · intro hnr
    have general : ∀ (l : List ℕ) (st : PlayerState), st.running = false →
        runLoop fixedUpdate st l = st := by
      intro l
      induction l with
      | nil => intro st _; rfl
      | cons n l ih =>
        intro st hst
        unfold runLoop at ih ⊢
        simp only [List.foldl_cons]
        rw [show loopFrame fixedUpdate st n = st by unfold loopFrame; simp [hst]]
        exact ih st hst
    exact general frames _ hnr

/-! ## Vectors and the horizontal movement direction (C5)

Rational 3-vectors stand in for THREE.Vector3.  THREE's normalize is
`divideScalar(length() || 1)`: a zero-length vector is divided by 1 and so
stays the zero vector; for a nonzero vector the division by the (generally
irrational) Euclidean length is abstracted as the parameter `normDiv`,
which is never reached in the degenerate case the claim is about.

game.js `_fixedUpdate` (lines 1814-1832): camDir is the camera look
direction; its y component is zeroed, it is normalized (guarded as above),
negated into `forward`; `right` is the normalized cross product of forward
with (0,1,0); moveDir adds forward and right scaled by the input axes and
is normalized only when its squared length exceeds 0.0001; the position
then moves by moveDir * speed * dt.  There is no reference to any previous
frame's forward vector anywhere in this computation. -/

structure Vec3 where
  x : ℚ
  y : ℚ
  z : ℚ
deriving DecidableEq

def Vec3.add (a b : Vec3) : Vec3 := ⟨a.x + b.x, a.y + b.y, a.z + b.z⟩

def Vec3.smul (a : Vec3) (c : ℚ) : Vec3 := ⟨a.x * c, a.y * c, a.z * c⟩

def Vec3.neg (a : Vec3) : Vec3 := ⟨-a.x, -a.y, -a.z⟩

def Vec3.cross (a b : Vec3) : Vec3 :=
  ⟨a.y * b.z - a.z * b.y, a.z * b.x - a.x * b.z, a.x * b.y - a.y * b.x⟩

def Vec3.lengthSq (a : Vec3) : ℚ := a.x * a.x + a.y * a.y + a.z * a.z

/-- THREE.Vector3.normalize: divideScalar(length() || 1); the zero vector
is left unchanged, a nonzero vector is divided by its length (`normDiv`). -/
def threeNormalize (normDiv : Vec3 → Vec3) (v : Vec3) : Vec3 :=
  if v.lengthSq = 0 then v else normDiv v

/-- The movement direction computed by `_fixedUpdate` from the camera look
direction and the input axes (game.js lines 1818-1829). -/
def horizMoveDir (normDiv : Vec3 → Vec3) (camDir : Vec3)
    (moveForward moveRight : ℚ) : Vec3 :=
  let proj := threeNormalize normDiv ⟨camDir.x, 0, camDir.z⟩
  let forward := proj.neg
  let right := threeNormalize normDiv (forward.cross ⟨0, 1, 0⟩)
  let moveDir := (forward.smul moveForward).add (right.smul moveRight)
  if moveDir.lengthSq > 1 / 10000 then threeNormalize normDiv moveDir else moveDir

/-- The horizontal displacement `moveDir * (speed * dt)` added to the
player position (game.js line 1832). -/
def horizDisplacement (normDiv : Vec3 → Vec3) (camDir : Vec3)
    (moveForward moveRight speed dt : ℚ) : Vec3 :=
  (horizMoveDir normDiv camDir moveForward moveRight).smul (speed * dt)

/-- Modelled from the spec: the specified movement direction falls back to
the previous frame's forward vector when the horizontal projection of the
look direction is degenerate; otherwise it matches the source.  This is
the behaviour the claim C5 asserts, stated for comparison with the
source's `horizMoveDir`; the source has no such fallback. -/
def horizMoveDirSpec (normDiv : Vec3 → Vec3) (prevForward camDir : Vec3)
    (moveForward moveRight : ℚ) : Vec3 :=
  let projRaw : Vec3 := ⟨camDir.x, 0, camDir.z⟩
  let forward := if projRaw.lengthSq = 0 then prevForward
    else (threeNormalize normDiv projRaw).neg
  let right := threeNormalize normDiv (forward.cross ⟨0, 1, 0⟩)
  let moveDir := (forward.smul moveForward).add (right.smul moveRight)
  if moveDir.lengthSq > 1 / 10000 then threeNormalize normDiv moveDir else moveDir

/-- C5 counterexample: looking straight up (camDir = (0,1,0)) with forward
input held and a previous forward of (0,0,-1), the source computes a zero
movement direction (the guarded normalize leaves the zero projection at
zero), while the fallback behaviour the claim describes would move along
the previous forward; the two disagree, so the code has no such fallback. -/
theorem threeNormalize_zero (normDiv : Vec3 → Vec3) :
    threeNormalize normDiv ⟨0, 0, 0⟩ = ⟨0, 0, 0⟩ := by
  unfold threeNormalize Vec3.lengthSq
  norm_num

theorem C5_no_fallback_counterexample :
    horizMoveDir id ⟨0, 1, 0⟩ 1 0 = (⟨0, 0, 0⟩ : Vec3) ∧
    horizMoveDirSpec id ⟨0, 0, -1⟩ ⟨0, 1, 0⟩ 1 0 = (⟨0, 0, -1⟩ : Vec3) ∧
    horizMoveDir id ⟨0, 1, 0⟩ 1 0 ≠ horizMoveDirSpec id ⟨0, 0, -1⟩ ⟨0, 1, 0⟩ 1 0 := by
  have h1 : horizMoveDir id ⟨0, 1, 0⟩ 1 0 = (⟨0, 0, 0⟩ : Vec3) := by
    norm_num [horizMoveDir, threeNormalize_zero, threeNormalize, Vec3.neg,
      Vec3.cross, Vec3.smul, Vec3.add, Vec3.lengthSq]
  have h2 : horizMoveDirSpec id ⟨0, 0, -1⟩ ⟨0, 1, 0⟩ 1 0 = (⟨0, 0, -1⟩ : Vec3) := by
    norm_num [horizMoveDirSpec, threeNormalize, Vec3.neg,
      Vec3.cross, Vec3.smul, Vec3.add, Vec3.lengthSq]
  refine ⟨h1, h2, ?_⟩
  rw [h1, h2]
  intro h
  have := congrArg Vec3.z h
  norm_num at this

/-- C5 (amended): when the horizontal projection of the look direction is
degenerate (camDir.x = camDir.z = 0, looking straight up or down), the
guarded normalize leaves the zero vector unchanged, so the movement
direction and the integrated displacement are exactly zero for every
normalisation oracle, input axes, speed and dt — the position is simply
unchanged that step (and in this total rational model no NaN can arise);
the code does not fall back to the previous frame's forward vector. -/
theorem C5_degenerate_projection_no_motion (normDiv : Vec3 → Vec3)
    (camDir : Vec3) (moveForward moveRight speed dt : ℚ)
    (hx : camDir.x = 0) (hz : camDir.z = 0) :
    horizMoveDir normDiv camDir moveForward moveRight = ⟨0, 0, 0⟩ ∧
    horizDisplacement normDiv camDir moveForward moveRight speed dt = ⟨0, 0, 0⟩ := by
  have hmove : horizMoveDir normDiv camDir moveForward moveRight = ⟨0, 0, 0⟩ := by
    norm_num [horizMoveDir, hx, hz, threeNormalize_zero, Vec3.neg,
      Vec3.cross, Vec3.smul, Vec3.add, Vec3.lengthSq]
  refine ⟨hmove, ?_⟩
  unfold horizDisplacement
  rw [hmove]
  norm_num [Vec3.smul]

/-- C5 witness: the degenerate look direction (0,1,0) with full forward
and strafe input produces zero movement and zero displacement. -/
theorem C5_degenerate_projection_no_motion_witness :
    horizMoveDir id ⟨0, 1, 0⟩ 1 1 = (⟨0, 0, 0⟩ : Vec3) ∧
    horizDisplacement id ⟨0, 1, 0⟩ 1 1 6 (1 / 60) = (⟨0, 0, 0⟩ : Vec3) :=
  C5_degenerate_projection_no_motion id ⟨0, 1, 0⟩ 1 1 6 (1 / 60) rfl rfl

/-! ## Pellet spread directions (C8)

game.js `_shoot`, lines 1660-1671: for each pellet the ray direction
starts as the camera direction; only when `weapon.spread` is truthy (in
JS, nonzero) AND greater than 0.0001 is it perturbed by a quaternion built
from two uniform draws in [-spread/2, spread/2].  The quaternion rotation
(and renormalisation) is abstracted as the parameter `rotate`; with
spread = 0 the guard fails and the direction is exactly the camera
direction. -/

def pelletDir (rotate : ℚ → ℚ → Vec3 → Vec3) (spread : ℚ) (r1 r2 : ℚ)
    (camDir : Vec3) : Vec3 :=
  if spread ≠ 0 ∧ spread > 1 / 10000
  then rotate ((r1 - 1 / 2) * spread) ((r2 - 1 / 2) * spread) camDir
  else camDir

/-- C8: a weapon with spread = 0 fires every pellet exactly along the aim
direction, for every rotation oracle and all outcomes of the two random
draws; the catalog's sniper is such a weapon (its spread is 0). -/
theorem C8_zero_spread_exact_aim :
    (∀ (rotate : ℚ → ℚ → Vec3 → Vec3) (r1 r2 : ℚ) (camDir : Vec3),
      pelletDir rotate 0 r1 r2 camDir = camDir) ∧
    (weapons.getD 1 defaultWeapon).id = .sniper ∧
    (weapons.getD 1 defaultWeapon).spread = 0 ∧
    (∀ (rotate : ℚ → ℚ → Vec3 → Vec3) (r1 r2 : ℚ) (camDir : Vec3),
      pelletDir rotate (weapons.getD 1 defaultWeapon).spread r1 r2 camDir = camDir) := by
  refine ⟨?_, rfl, rfl, ?_⟩ <;>
  · intro rotate r1 r2 camDir
    unfold pelletDir
    rw [if_neg]
    intro h
    exact h.1 rfl

/-! ## Enemy respawn manager (C7)

game.js `_handleEnemyRespawn` (lines 2860-2900): count live enemies;
when live < maxEnemies and (live < 12 or the respawn interval elapsed),
spawn min(4, maxEnemies - live) enemies.  Each iteration sorts the twelve
perimeter zones by distance to the player, farthest first (the JS
comparator returns distB - distA; comparing squared distances gives the
same order since sqrt is monotone), picks zone i mod 12, draws a random
offset in [-10, 10] on each axis, and pushes a new live enemy only when
`_isValidSpawnPosition` accepts the point — otherwise that iteration
spawns nothing (the respawn path has no retry and no fall-through).
`_isValidSpawnPosition` (lines 1609-1623) rejects a point within distance
8 of any of the 20 x 20 grid points (bx-10)*20, (bz-10)*20; distance < 8
is compared via the squared distance < 64.  `_spawnEnemies` (line 1606)
sets maxEnemies = count * 2 for an initial spawn of `count`.  The random
draws enter as the oracle `rnd`. -/

structure SpawnZone where
  x : ℚ
  z : ℚ
deriving DecidableEq

def respawnZones : List SpawnZone :=
  [⟨70, 70⟩, ⟨-70, 70⟩, ⟨70, -70⟩, ⟨-70, -70⟩,
   ⟨90, 0⟩, ⟨-90, 0⟩, ⟨0, 90⟩, ⟨0, -90⟩,
   ⟨60, 40⟩, ⟨-60, 40⟩, ⟨60, -40⟩, ⟨-60, -40⟩]

def isValidSpawnPosition (x z : ℚ) : Bool :=
  (List.range 20).all fun bx =>
    (List.range 20).all fun bz =>
      decide ((x - (((bx : ℚ) - 10) * 20)) ^ 2 +
        (z - (((bz : ℚ) - 10) * 20)) ^ 2 ≥ 64)

structure RespawnEnemy where
  x : ℚ
  z : ℚ
  alive : Bool
deriving DecidableEq

structure RespawnState where
  enemies : List RespawnEnemy
  maxEnemies : ℕ
  lastEnemyRespawn : ℤ
  enemyRespawnInterval : ℤ
  playerX : ℚ
  playerZ : ℚ

def initMaxEnemies (count : ℕ) : ℕ := count * 2

def aliveCount (s : RespawnState) : ℕ :=
  (s.enemies.filter (fun e => e.alive)).length

def distSqToPlayer (px pz : ℚ) (zone : SpawnZone) : ℚ :=
  (zone.x - px) ^ 2 + (zone.z - pz) ^ 2

def sortedZones (px pz : ℚ) : List SpawnZone :=
  respawnZones.mergeSort
    (fun a b => decide (distSqToPlayer px pz b ≤ distSqToPlayer px pz a))

def spawnStep (px pz : ℚ) (rnd : ℕ → ℚ × ℚ) (acc : List RespawnEnemy)
    (i : ℕ) : List RespawnEnemy :=
  let zones := sortedZones px pz
  let zone := zones.getD (i % zones.length) ⟨0, 0⟩
  let x := zone.x + ((rnd i).1 - 1 / 2) * 20
  let z := zone.z + ((rnd i).2 - 1 / 2) * 20
  if isValidSpawnPosition x z then acc ++ [⟨x, z, true⟩] else acc

def spawnBatch (px pz : ℚ) (count : ℕ) (rnd : ℕ → ℚ × ℚ) :
    List RespawnEnemy :=
  (List.range count).foldl (spawnStep px pz rnd) []

def handleEnemyRespawn (now : ℤ) (rnd : ℕ → ℚ × ℚ) (s : RespawnState) :
    RespawnState :=
  let aliveEnemies := (s.enemies.filter (fun e => e.alive)).length
  if aliveEnemies < s.maxEnemies ∧
      (aliveEnemies < 12 ∨ now - s.lastEnemyRespawn > s.enemyRespawnInterval)
  then
    { s with
      enemies := s.enemies ++
        spawnBatch s.playerX s.playerZ (min 4 (s.maxEnemies - aliveEnemies)) rnd
      lastEnemyRespawn := now }
  else s

theorem spawnStep_length (px pz : ℚ) (rnd : ℕ → ℚ × ℚ)
    (acc : List RespawnEnemy) (i : ℕ) :
    (spawnStep px pz rnd acc i).length ≤ acc.length + 1 := by
  unfold spawnStep
  dsimp only
  split
  · simp
  · simp

theorem spawnStep_mem (px pz : ℚ) (rnd : ℕ → ℚ × ℚ)
    (acc : List RespawnEnemy) (i : ℕ) (e : RespawnEnemy)
    (he : e ∈ spawnStep px pz rnd acc i) :
    e ∈ acc ∨ (isValidSpawnPosition e.x e.z = true ∧ e.alive = true) := by
  unfold spawnStep at he
  dsimp only at he
  split at he
  · rcases List.mem_append.mp he with h | h
    · exact Or.inl h
    · simp only [List.mem_singleton] at h
      subst h
      rename_i hvalid
      exact Or.inr ⟨hvalid, rfl⟩
  · exact Or.inl he

theorem spawnFold_length (px pz : ℚ) (rnd : ℕ → ℚ × ℚ) (l : List ℕ) :
    ∀ acc : List RespawnEnemy,
    (l.foldl (spawnStep px pz rnd) acc).length ≤ acc.length + l.length := by
  induction l with
  | nil => intro acc; simp
  | cons i l ih =>
    intro acc
    simp only [List.foldl_cons, List.length_cons]
    calc (l.foldl (spawnStep px pz rnd) (spawnStep px pz rnd acc i)).length
        ≤ (spawnStep px pz rnd acc i).length + l.length := ih _
      _ ≤ acc.length + 1 + l.length := by
          have := spawnStep_length px pz rnd acc i
          omega
      _ = acc.length + (l.length + 1) := by omega

theorem spawnFold_mem (px pz : ℚ) (rnd : ℕ → ℚ × ℚ) (l : List ℕ) :
    ∀ (acc : List RespawnEnemy) (e : RespawnEnemy),
    e ∈ l.foldl (spawnStep px pz rnd) acc →
    e ∈ acc ∨ (isValidSpawnPosition e.x e.z = true ∧ e.alive = true) := by
  induction l with
  | nil => intro acc e he; exact Or.inl he
  | cons i l ih =>
    intro acc e he
    simp only [List.foldl_cons] at he
    rcases ih _ e he with h | h
    · exact spawnStep_mem px pz rnd acc i e h
    · exact Or.inr h

theorem spawnBatch_length (px pz : ℚ) (count : ℕ) (rnd : ℕ → ℚ × ℚ) :
    (spawnBatch px pz count rnd).length ≤ count := by
  have := spawnFold_length px pz rnd (List.range count) []
  simpa [spawnBatch] using this

theorem spawnBatch_mem (px pz : ℚ) (count : ℕ) (rnd : ℕ → ℚ × ℚ)
    (e : RespawnEnemy) (he : e ∈ spawnBatch px pz count rnd) :
    isValidSpawnPosition e.x e.z = true ∧ e.alive = true := by
  rcases spawnFold_mem px pz rnd (List.range count) [] e he with h | h
  · exact absurd h (List.not_mem_nil e)
  · exact h

/-- C7: a respawn tick never raises the number of live enemies above
maxEnemies (the desiredMax, set to twice the initial spawn count by
`_spawnEnemies`), it appends at most 4 enemies, and every enemy it spawns
is at a position accepted by `_isValidSpawnPosition` — the respawn path
skips an invalid candidate entirely, so it never places an enemy inside an
obstacle footprint at all (a fortiori, the claim's allowance for placement
after an exhausted retry budget is satisfied). -/
theorem C7_respawn_bounds (now : ℤ) (rnd : ℕ → ℚ × ℚ) (s : RespawnState)
    (count : ℕ) :
    aliveCount (handleEnemyRespawn now rnd s) ≤ max (aliveCount s) s.maxEnemies ∧
    (handleEnemyRespawn now rnd s).enemies.length ≤ s.enemies.length + 4 ∧
    (∀ e ∈ (handleEnemyRespawn now rnd s).enemies,
      e ∈ s.enemies ∨ isValidSpawnPosition e.x e.z = true) ∧
    initMaxEnemies count = 2 * count := by
  refine ⟨?_, ?_, ?_, by unfold initMaxEnemies; omega⟩
  · unfold handleEnemyRespawn
    dsimp only
    split
    · rename_i hcond
      unfold aliveCount
      simp only [List.filter_append, List.length_append]
      have hlen : ((spawnBatch s.playerX s.playerZ
          (min 4 (s.maxEnemies - (s.enemies.filter (fun e => e.alive)).length))
          rnd).filter (fun e => e.alive)).length ≤
          min 4 (s.maxEnemies - (s.enemies.filter (fun e => e.alive)).length) := by
        calc _ ≤ (spawnBatch s.playerX s.playerZ _ rnd).length :=
              List.length_filter_le _ _
          _ ≤ _ := spawnBatch_length _ _ _ _
      have hlt := hcond.1
      omega
    · simp [aliveCount]
  · unfold handleEnemyRespawn
    dsimp only
    split
    · simp only [List.length_append]
      have := spawnBatch_length s.playerX s.playerZ
        (min 4 (s.maxEnemies - (s.enemies.filter (fun e => e.alive)).length)) rnd
      omega
    · omega
  · intro e he
    unfold handleEnemyRespawn at he
    dsimp only at he
    split at he
    · simp only [List.mem_append] at he
      rcases he with h | h
      · exact Or.inl h
      · exact Or.inr (spawnBatch_mem _ _ _ _ e h).1
    · exact Or.inl he

/-! ## Hitscan shooting (C1)

game.js `_shoot` (lines 1629-1790).  The hittables list is built once per
shot (lines 1637-1658): every mesh in the scene whose userData.hittable is
set (ground, roads, trunks, building boxes, ...), plus each live enemy's
group object and its mesh children (tagged isEnemyPart with parentEnemy).
`_spawnTargets` (lines 1311-1321) creates the practice-target meshes but
never sets userData.hittable on them, and they are direct children of the
scene, not of any hittable object, so the raycast
`ray.intersectObjects(hittables, true)` can never report a target mesh:
`inHittables` below records exactly which objects the raycast can return.
Per pellet the nearest intersection is processed: the target loop
(lines 1678-1692) walks the hit object's parent chain against each live
target's mesh — a chain that contains a target mesh only when the hit
object IS that mesh — marking it dead and adding the 5-money bounty on a
match; the enemy loop (lines 1694-1747) credits at most one enemy (the
enemyHit flag plus break), subtracts weapon.damage * 10 from its health,
records lastDamageTime, and on health <= 0 removes the enemy and adds 15
money.  The geometric raycast itself is external (THREE.Raycaster), so
each pellet's nearest-hit outcome enters as an oracle value constrained to
the hittables list. -/

structure Target where
  alive : Bool
deriving DecidableEq

structure ShootEnemy where
  alive : Bool
  health : ℚ
  lastDamageTime : Option ℤ
deriving DecidableEq

/-- What the nearest intersection of a pellet ray can resolve to:
hittable-tagged static scenery, a practice-target mesh (index into the
targets list), an enemy group, or an enemy part mesh whose parentEnemy is
enemy i. -/
inductive HitObj where
  | staticGeom
  | targetMesh (i : ℕ)
  | enemyGroup (i : ℕ)
  | enemyPart (i : ℕ)
deriving DecidableEq

structure ShootState where
  targets : List Target
  enemies : List ShootEnemy
  money : ℤ
deriving DecidableEq

def enemyAliveAt (s : ShootState) (i : ℕ) : Bool :=
  match s.enemies.get? i with
  | some e => e.alive
  | none => false

/-- Membership in the hittables list `_shoot` builds (lines 1637-1658):
static scenery tagged userData.hittable is in; target meshes are NOT in —
`_spawnTargets` never tags them (lines 1311-1321) and the scene traversal
only collects tagged meshes; a live enemy's group and part meshes are
pushed explicitly. -/
def inHittables (s : ShootState) : HitObj → Bool
  | .staticGeom => true
  | .targetMesh _ => false
  | .enemyGroup i => enemyAliveAt s i
  | .enemyPart i => enemyAliveAt s i

/-- The parent-chain walk of lines 1680-1691 reaches target i's mesh
exactly when the hit object is that mesh (target meshes have no children
and their parent is the scene). -/
def hitMatchesTarget (o : HitObj) (i : ℕ) : Bool :=
  match o with
  | .targetMesh j => decide (j = i)
  | _ => false

/-- The target loop of lines 1678-1692: every live target whose mesh the
hit object resolves to is marked dead and pays the 5-money bounty; the
loop keeps scanning the remaining targets afterwards. -/
def targetLoop (o : HitObj) : List Target → ℕ → ℤ → List Target × ℤ
  | [], _, money => ([], money)
  | t :: rest, i, money =>
    let next := targetLoop o rest (i + 1) money
    if t.alive && hitMatchesTarget o i
    then (⟨false⟩ :: next.1, next.2 + 5)
    else (t :: next.1, next.2)

/-- The enemy-match tests of lines 1704-1722 (part with parentEnemy = i,
the group itself, or the parent chain) resolve the hit object to at most
one enemy index. -/
def matchedEnemyIdx (o : HitObj) : Option ℕ :=
  match o with
  | .enemyGroup j => some j
  | .enemyPart j => some j
  | _ => none

/-- The enemy loop of lines 1694-1747: the matched live enemy (the
enemyHit flag and the break make it unique) takes weapon.damage * 10,
records lastDamageTime := now, and when health drops to 0 or below it is
marked dead, spliced out of the list, and 15 money is added. -/
def enemyBranch (o : HitObj) (now : ℤ) (weaponDamage : ℚ) (s : ShootState) :
    ShootState :=
  match matchedEnemyIdx o with
  | none => s
  | some j =>
    match s.enemies.get? j with
    | none => s
    | some e =>
      if e.alive then
        let health2 := e.health - weaponDamage * 10
        if health2 ≤ 0 then
          { s with enemies := s.enemies.eraseIdx j, money := s.money + 15 }
        else
          { s with enemies := (s.enemies.set j
              { e with health := health2, lastDamageTime := some now }) }
      else s

/-- One pellet (lines 1662-1748): no intersection changes nothing beyond
visual effects; a nearest hit runs the target loop and then the enemy
loop. -/
def shootPellet (now : ℤ) (weaponDamage : ℚ) (s : ShootState)
    (oh : Option HitObj) : ShootState :=
  match oh with
  | none => s
  | some o =>
    enemyBranch o now weaponDamage
      { s with targets := (targetLoop o s.targets 0 s.money).1,
               money := (targetLoop o s.targets 0 s.money).2 }

/-- `_shoot`: one hit outcome per pellet. -/
def shoot (now : ℤ) (weaponDamage : ℚ) (hits : List (Option HitObj))
    (s : ShootState) : ShootState :=
  hits.foldl (shootPellet now weaponDamage) s

/-- The practice-range state of C1: one live target in front of the
player, no enemies, the starting 50 money. -/
def c1State : ShootState := { targets := [⟨true⟩], enemies := [], money := 50 }

theorem targetLoop_staticGeom (ts : List Target) :
    ∀ (i : ℕ) (money : ℤ), targetLoop .staticGeom ts i money = (ts, money) := by
  induction ts with
  | nil => intro i money; rfl
  | cons t rest ih =>
    intro i money
    unfold targetLoop
    rw [ih (i + 1) money]
    simp [hitMatchesTarget]

theorem shootPellet_c1_fixed (now : ℤ) (weaponDamage : ℚ)
    (oh : Option {o : HitObj // inHittables c1State o = true}) :
    shootPellet now weaponDamage c1State (oh.map Subtype.val) = c1State := by
  match oh with
  | none => rfl
  | some ⟨o, ho⟩ =>
    cases o with
    | staticGeom =>
      show shootPellet now weaponDamage c1State (some .staticGeom) = c1State
      simp only [shootPellet]
      rw [targetLoop_staticGeom]
      rfl
    | targetMesh i => exact absurd ho (by simp [inHittables])
    | enemyGroup i =>
      exact absurd ho (by simp [inHittables, enemyAliveAt, c1State])
    | enemyPart i =>
      exact absurd ho (by simp [inHittables, enemyAliveAt, c1State])

/-- C1 fails on the code: for every weapon damage, every pellet count and
every sequence of per-pellet raycast outcomes the raycast can actually
produce (members of the hittables list `_shoot` builds — which never
contains a practice-target mesh, because `_spawnTargets` does not tag
targets userData.hittable), shooting leaves the practice-range state
completely unchanged: the live target is NOT marked dead and the 5-money
bounty is NOT paid, contradicting the claim and the README's "targets
that disappear when hit". -/
theorem C1_target_unhittable (now : ℤ) (weaponDamage : ℚ)
    (hits : List (Option {o : HitObj // inHittables c1State o = true})) :
    shoot now weaponDamage (hits.map (fun oh => oh.map Subtype.val)) c1State
      = c1State ∧
    (shoot now weaponDamage (hits.map (fun oh => oh.map Subtype.val))
      c1State).targets = [⟨true⟩] ∧
    (shoot now weaponDamage (hits.map (fun oh => oh.map Subtype.val))
      c1State).money = 50 := by
  have main : shoot now weaponDamage
      (hits.map (fun oh => oh.map Subtype.val)) c1State = c1State := by
    unfold shoot
    induction hits with
    | nil => rfl
    | cons oh hits ih =>
      simp only [List.map_cons, List.foldl_cons]
      rw [shootPellet_c1_fixed now weaponDamage oh]
      exact ih
  exact ⟨main, by rw [main]; rfl, by rw [main]; rfl⟩
